import Mathlib

set_option maxHeartbeats 1000000

/-!
# Shallow embedding of the zmail storage layer (`database.ts`)

The SQL tables are modelled as lists of rows, kept in insertion order:
`INSERT` appends a row, `SELECT ... .first()` is `List.find?` with the
`WHERE` clause as predicate, and `DELETE` keeps the rows on which the
`WHERE` clause is false.  The schema created by the database module
declares `ON DELETE CASCADE` foreign keys along
mailboxes → emails → attachments → attachment_chunks, and the Cloudflare
D1 engine enforces them, so each `DELETE` helper below also removes the
transitively owned child rows.

Attachment payloads are JavaScript strings indexed by code units; we model
them as `List Char`, with `s.substring(start, end)` rendered as
`(s.drop start).take (end - start)` and `s.length` as `List.length`.
The clock (`getCurrentTimestamp`) and the id generator (`generateId`) are
impure in the source; each operation that uses them takes their outputs as
explicit parameters (`now`, row ids).
-/

/-- 附件分块大小：`CHUNK_SIZE = 500000` from `database.ts`. -/
def CHUNK_SIZE : Nat := 500000

/-- A row of the `mailboxes` table. -/
structure Mailbox where
  id : String
  address : String
  createdAt : Nat
  expiresAt : Nat
  ipAddress : String
  lastAccessed : Nat
deriving DecidableEq

/-- A row of the `emails` table. -/
structure Email where
  id : String
  mailboxId : String
  fromAddress : String
  fromName : String
  toAddress : String
  subject : String
  textContent : String
  htmlContent : String
  receivedAt : Nat
  hasAttachments : Bool
  isRead : Bool
deriving DecidableEq

/-- The summary returned by `getEmails` (no body columns selected). -/
structure EmailListItem where
  id : String
  mailboxId : String
  fromAddress : String
  fromName : String
  toAddress : String
  subject : String
  receivedAt : Nat
  hasAttachments : Bool
  isRead : Bool
deriving DecidableEq

/-- A row of the `attachments` table; also the record type returned by
`saveAttachment`/`getAttachment`. -/
structure Attachment where
  id : String
  emailId : String
  filename : String
  mimeType : String
  content : List Char
  size : Nat
  createdAt : Nat
  isLarge : Bool
  chunksCount : Nat
deriving DecidableEq

/-- A row of the `attachment_chunks` table. -/
structure AttachmentChunk where
  id : String
  attachmentId : String
  chunkIndex : Nat
  content : List Char
deriving DecidableEq

/-- The argument record of `saveAttachment`. -/
structure SaveAttachmentParams where
  emailId : String
  filename : String
  mimeType : String
  content : List Char
  size : Nat
deriving DecidableEq

/-- The whole D1 database: the four tables created by the database module. -/
@[ext]
structure DB where
  mailboxes : List Mailbox
  emails : List Email
  attachments : List Attachment
  chunks : List AttachmentChunk
deriving DecidableEq

/-- The empty database (all four tables freshly created). -/
def emptyDB : DB := { mailboxes := [], emails := [], attachments := [], chunks := [] }

/-- `DELETE FROM attachments WHERE p`.  The schema's `ON DELETE CASCADE`
on `attachment_chunks.attachment_id` also removes the chunks of every
deleted attachment. -/
def DB.deleteAttachmentsWhere (db : DB) (p : Attachment → Bool) : DB :=
  { db with
    attachments := db.attachments.filter (fun a => !(p a)),
    chunks := db.chunks.filter (fun c =>
      !((db.attachments.filter p).any (fun a => a.id == c.attachmentId))) }

/-- `DELETE FROM emails WHERE p`, with the cascade removing the deleted
emails' attachments and, transitively, those attachments' chunks. -/
def DB.deleteEmailsWhere (db : DB) (p : Email → Bool) : DB :=
  { db with
    emails := db.emails.filter (fun e => !(p e)),
    attachments := db.attachments.filter (fun a =>
      !((db.emails.filter p).any (fun e => e.id == a.emailId))),
    chunks := db.chunks.filter (fun c =>
      !((db.attachments.filter (fun a =>
          (db.emails.filter p).any (fun e => e.id == a.emailId))).any
        (fun a => a.id == c.attachmentId))) }

/-- `DELETE FROM mailboxes WHERE p`, with the cascade removing the deleted
mailboxes' emails, attachments and chunks. -/
def DB.deleteMailboxesWhere (db : DB) (p : Mailbox → Bool) : DB :=
  { db with
    mailboxes := db.mailboxes.filter (fun m => !(p m)),
    emails := db.emails.filter (fun e =>
      !((db.mailboxes.filter p).any (fun m => m.id == e.mailboxId))),
    attachments := db.attachments.filter (fun a =>
      !((db.emails.filter (fun e =>
          (db.mailboxes.filter p).any (fun m => m.id == e.mailboxId))).any
        (fun e => e.id == a.emailId))),
    chunks := db.chunks.filter (fun c =>
      !((db.attachments.filter (fun a =>
          (db.emails.filter (fun e =>
            (db.mailboxes.filter p).any (fun m => m.id == e.mailboxId))).any
          (fun e => e.id == a.emailId))).any
        (fun a => a.id == c.attachmentId))) }

/-- `getMailbox` from `database.ts`: `SELECT ... WHERE address = ? AND
expires_at > ?` with `?` bound to `now`; on a hit it runs
`UPDATE mailboxes SET last_accessed = now WHERE id = result.id` and returns
the record rebuilt from the row with `lastAccessed: now`. -/
def getMailbox (db : DB) (address : String) (now : Nat) : Option Mailbox × DB :=
  match db.mailboxes.find? (fun m => m.address == address && now < m.expiresAt) with
  | none => (none, db)
  | some r =>
    (some { r with lastAccessed := now },
     { db with mailboxes := db.mailboxes.map (fun m =>
        if m.id == r.id then { m with lastAccessed := now } else m) })

/-- `deleteMailbox` from `database.ts`: `DELETE FROM mailboxes WHERE
address = ?` (cascading per the schema). -/
def deleteMailbox (db : DB) (address : String) : DB :=
  db.deleteMailboxesWhere (fun m => m.address == address)

/-- The row-to-summary projection used by `getEmails`. -/
def emailListItem (e : Email) : EmailListItem :=
  { id := e.id, mailboxId := e.mailboxId, fromAddress := e.fromAddress,
    fromName := e.fromName, toAddress := e.toAddress, subject := e.subject,
    receivedAt := e.receivedAt, hasAttachments := e.hasAttachments,
    isRead := e.isRead }

/-- `ORDER BY received_at DESC` as a relation on email rows. -/
def emailDesc (a b : Email) : Prop := b.receivedAt ≤ a.receivedAt

instance : DecidableRel emailDesc := fun a b => Nat.decLe b.receivedAt a.receivedAt

instance : IsTotal Email emailDesc := ⟨fun a b => Nat.le_total b.receivedAt a.receivedAt⟩

instance : IsTrans Email emailDesc := ⟨fun _ _ _ hab hbc => Nat.le_trans hbc hab⟩

/-- `getEmails` from `database.ts`: a pure `SELECT` of summary columns
`WHERE mailbox_id = ? ORDER BY received_at DESC`; it issues no `UPDATE`
or `DELETE`, so the database component is returned unchanged. -/
def getEmails (db : DB) (mailboxId : String) : List EmailListItem × DB :=
  (((db.emails.filter (fun e => e.mailboxId == mailboxId)).insertionSort
     emailDesc).map emailListItem, db)

/-- The row transformation of `UPDATE emails SET is_read = 1 WHERE id = ?`. -/
def markRead (id : String) (e : Email) : Email :=
  if e.id == id then { e with isRead := true } else e

/-- `getEmail` from `database.ts`: `SELECT ... WHERE id = ?`, then on a hit
`UPDATE emails SET is_read = 1 WHERE id = ?`, returning the record rebuilt
from the row with `isRead: true`. -/
def getEmail (db : DB) (id : String) : Option Email × DB :=
  match db.emails.find? (fun e => e.id == id) with
  | none => (none, db)
  | some r =>
    (some { r with isRead := true },
     { db with emails := db.emails.map (markRead id) })

/-- `cleanupAttachments` from `database.ts`: select the email's attachments;
if there are any, loop deleting the chunks of each large one, then
`DELETE FROM attachments WHERE email_id = ?` (cascading per the schema). -/
def cleanupAttachments (db : DB) (emailId : String) : DB :=
  if (db.attachments.filter (fun a => a.emailId == emailId)).isEmpty then db
  else
    DB.deleteAttachmentsWhere
      { db with chunks := db.chunks.filter (fun c =>
          !((db.attachments.filter (fun a => a.emailId == emailId)).any
            (fun a => a.isLarge && a.id == c.attachmentId))) }
      (fun a => a.emailId == emailId)

/-- `deleteEmail` from `database.ts`: first `cleanupAttachments`, then
`DELETE FROM emails WHERE id = ?`. -/
def deleteEmail (db : DB) (id : String) : DB :=
  (cleanupAttachments db id).deleteEmailsWhere (fun e => e.id == id)

/-- `cleanupOrphanedAttachments` from `database.ts`: select attachments whose
`email_id` has no matching email; if any, loop deleting the chunks of each
large one, then delete all orphaned attachment rows, returning the number of
attachment rows that `DELETE` removed (`result.meta.changes`). -/
def cleanupOrphanedAttachments (db : DB) : Nat × DB :=
  if (db.attachments.filter (fun a =>
      !(db.emails.any (fun e => e.id == a.emailId)))).isEmpty then (0, db)
  else
    ((db.attachments.filter (fun a =>
        !(db.emails.any (fun e => e.id == a.emailId)))).length,
     DB.deleteAttachmentsWhere
       { db with chunks := db.chunks.filter (fun c =>
           !((db.attachments.filter (fun a =>
               !(db.emails.any (fun e => e.id == a.emailId)))).any
             (fun a => a.isLarge && a.id == c.attachmentId))) }
       (fun a => !(db.emails.any (fun e => e.id == a.emailId))))

/-- The attachment row written by `saveAttachment` in the large branch:
`content = ''`, `isLarge = true`,
`chunksCount = Math.ceil(contentLength / CHUNK_SIZE)`, which for these
lengths (far below 2^53) is exactly `(L + CHUNK_SIZE - 1) / CHUNK_SIZE`. -/
def largeAttachment (params : SaveAttachmentParams) (now : Nat)
    (attachmentId : String) : Attachment :=
  { id := attachmentId, emailId := params.emailId, filename := params.filename,
    mimeType := params.mimeType, content := [], size := params.size,
    createdAt := now, isLarge := true,
    chunksCount := (params.content.length + CHUNK_SIZE - 1) / CHUNK_SIZE }

/-- The attachment row written by `saveAttachment` in the small branch:
full content inline, `isLarge = false`, `chunksCount = 0`. -/
def smallAttachment (params : SaveAttachmentParams) (now : Nat)
    (attachmentId : String) : Attachment :=
  { id := attachmentId, emailId := params.emailId, filename := params.filename,
    mimeType := params.mimeType, content := params.content,
    size := params.size, createdAt := now, isLarge := false, chunksCount := 0 }

/-- The chunk rows written by `saveAttachment`'s loop: chunk `i` carries
`content.substring(i*CHUNK_SIZE, min((i+1)*CHUNK_SIZE, L))`, which is
`(content.drop (i*CHUNK_SIZE)).take CHUNK_SIZE`. -/
def chunkRows (content : List Char) (attachmentId : String)
    (chunkId : Nat → String) : List AttachmentChunk :=
  (List.range ((content.length + CHUNK_SIZE - 1) / CHUNK_SIZE)).map (fun i =>
    { id := chunkId i, attachmentId := attachmentId, chunkIndex := i,
      content := (content.drop (i * CHUNK_SIZE)).take CHUNK_SIZE })

/-- `saveAttachment` from `database.ts`.  `generateId()` outputs are passed
in as `attachmentId` (the row id) and `chunkId i` (the id of chunk `i`).
The large/small decision compares `params.content.length` against
`CHUNK_SIZE`. -/
def saveAttachment (db : DB) (params : SaveAttachmentParams) (now : Nat)
    (attachmentId : String) (chunkId : Nat → String) : Attachment × DB :=
  if CHUNK_SIZE < params.content.length then
    (largeAttachment params now attachmentId,
     { db with
       attachments := db.attachments ++ [largeAttachment params now attachmentId],
       chunks := db.chunks ++ chunkRows params.content attachmentId chunkId })
  else
    (smallAttachment params now attachmentId,
     { db with
       attachments := db.attachments ++ [smallAttachment params now attachmentId] })

/-- `getAttachmentContent` from `database.ts`: loop `i = 0 .. chunksCount-1`,
`SELECT content FROM attachment_chunks WHERE attachment_id = ? AND
chunk_index = ?`, appending `chunk.content` when the row exists and its
content is non-empty (the JS truthiness test `if (chunk && chunk.content)`). -/
def getAttachmentContent (db : DB) (attachmentId : String) (chunksCount : Nat) :
    List Char :=
  (List.range chunksCount).foldl (fun content i =>
    match db.chunks.find? (fun c =>
        c.attachmentId == attachmentId && c.chunkIndex == i) with
    | some chunk => if chunk.content.isEmpty then content else content ++ chunk.content
    | none => content) []

/-- `getAttachment` from `database.ts`: `SELECT ... WHERE id = ?`; if the row
is flagged large, reassemble the content from the chunk table, otherwise use
the inline content column. -/
def getAttachment (db : DB) (id : String) : Option Attachment :=
  match db.attachments.find? (fun a => a.id == id) with
  | none => none
  | some r =>
    some { r with content :=
      if r.isLarge then getAttachmentContent db id r.chunksCount else r.content }

/-- The content of the chunk row of `attachmentId` at `chunkIndex = i`, or
`[]` when no such row exists. -/
def chunkAt (db : DB) (attachmentId : String) (i : Nat) : List Char :=
  match db.chunks.find? (fun c =>
      c.attachmentId == attachmentId && c.chunkIndex == i) with
  | some chunk => chunk.content
  | none => []

/-! ## Generic lemmas about folds, `find?` over ranges, and chunking -/

/-- A left fold that appends one block per index is the flatten of the map. -/
theorem foldl_append_eq_flatten (f : List Char → Nat → List Char)
    (g : Nat → List Char) (hf : ∀ acc i, f acc i = acc ++ g i) :
    ∀ (l : List Nat) (acc : List Char), l.foldl f acc = acc ++ (l.map g).flatten := by
  intro l
  induction l with
  | nil => intro acc; simp
  | cons x xs ih =>
    intro acc
    rw [List.foldl_cons, hf, ih, List.map_cons, List.flatten_cons, List.append_assoc]

/-- `getAttachmentContent` concatenates, over indices `0..chunksCount-1` in
ascending order, the content of the chunk at each index, the indices with no
chunk row contributing nothing. -/
theorem getAttachmentContent_flatten (db : DB) (aid : String) (n : Nat) :
    getAttachmentContent db aid n = ((List.range n).map (chunkAt db aid)).flatten := by
  unfold getAttachmentContent
  refine (foldl_append_eq_flatten _ (chunkAt db aid) ?_ (List.range n) []).trans
    (List.nil_append _)
  intro acc i
  unfold chunkAt
  split
  · rename_i chunk _
    cases hcc : chunk.content with
    | nil => simp
    | cons c cs => simp
  · simp

/-- `find?` of the test `j == i` over `range n` finds exactly `i`. -/
theorem find?_beq_range (i n : Nat) (h : i < n) :
    (List.range n).find? (fun j => j == i) = some i := by
  induction n with
  | zero => exact absurd h (Nat.not_lt_zero i)
  | succ n ih =>
    rw [List.range_succ, List.find?_append]
    by_cases hi : i < n
    · rw [ih hi]; rfl
    · have hin : i = n := by omega
      subst hin
      have hnone : (List.range i).find? (fun j => j == i) = none := by
        rw [List.find?_eq_none]
        intro x hx
        have hxi : x < i := List.mem_range.mp hx
        simp only [beq_iff_eq]
        exact Nat.ne_of_lt hxi
      rw [hnone]
      simp [List.find?]

/-- Splitting a list into `n` blocks of `K` and flattening is the identity,
provided `n` blocks cover the whole list. -/
theorem flatten_take_drop (K : Nat) :
    ∀ (n : Nat) (l : List Char), l.length ≤ n * K →
      ((List.range n).map (fun i => (l.drop (i * K)).take K)).flatten = l := by
  intro n
  induction n with
  | zero =>
    intro l h
    have hl : l = [] := List.eq_nil_of_length_eq_zero (by omega)
    subst hl
    simp
  | succ n ih =>
    intro l h
    rw [List.range_succ_eq_map, List.map_cons, List.map_map, List.flatten_cons]
    have h1 : ((fun i => (l.drop (i * K)).take K) ∘ Nat.succ)
        = fun i => (((l.drop K).drop (i * K)).take K) := by
      funext i
      simp only [Function.comp_apply]
      rw [List.drop_drop]
      have hmul : Nat.succ i * K = K + i * K := by
        simp only [Nat.succ_eq_add_one]
        ring
      rw [hmul]
    have h2 : (l.drop K).length ≤ n * K := by
      rw [List.length_drop]
      have hsm : (n + 1) * K = n * K + K := by ring
      omega
    rw [h1, ih _ h2]
    simp only [Nat.zero_mul, List.drop_zero]
    exact List.take_append_drop K l

/-- The ceiling count of `CHUNK_SIZE`-sized chunks covers the whole payload. -/
theorem length_le_chunksCount_mul (L : Nat) :
    L ≤ ((L + CHUNK_SIZE - 1) / CHUNK_SIZE) * CHUNK_SIZE := by
  rw [show CHUNK_SIZE = 500000 from rfl]
  omega

/-- `find?` by id over an insert-at-end, when the id is fresh on the left. -/
theorem find?_attachment_append (l : List Attachment) (att : Attachment)
    (attId : String) (hfa : ∀ a ∈ l, a.id ≠ attId) (hatt : att.id = attId) :
    (l ++ [att]).find? (fun a => a.id == attId) = some att := by
  rw [List.find?_append]
  have hnone : l.find? (fun a => a.id == attId) = none := by
    rw [List.find?_eq_none]
    intro a ha
    simp only [beq_iff_eq]
    exact hfa a ha
  rw [hnone, Option.none_or]
  exact List.find?_cons_of_pos _ (by simp [hatt])

/-! ## Claim theorems -/

/-- C2: for a payload of length `L ≤ 500000` (the threshold included),
`saveAttachment` stores the attachment with `isLarge = false`,
`chunksCount = 0`, no chunk rows, and the full content inline, and
`getAttachment` then returns the inline content unchanged, without
consulting the chunk store (the result does not depend on the chunk table). -/
theorem saveAttachment_small_inline (db : DB) (params : SaveAttachmentParams)
    (now : Nat) (attId : String) (chunkId : Nat → String)
    (hL : params.content.length ≤ CHUNK_SIZE)
    (hfa : ∀ a ∈ db.attachments, a.id ≠ attId) :
    (saveAttachment db params now attId chunkId).1.isLarge = false ∧
    (saveAttachment db params now attId chunkId).1.chunksCount = 0 ∧
    (saveAttachment db params now attId chunkId).1.content = params.content ∧
    (saveAttachment db params now attId chunkId).2.chunks = db.chunks ∧
    (∀ cs : List AttachmentChunk,
      getAttachment
        { (saveAttachment db params now attId chunkId).2 with chunks := cs } attId
        = some (saveAttachment db params now attId chunkId).1) := by
  have hnot : ¬ (CHUNK_SIZE < params.content.length) := Nat.not_lt.mpr hL
  unfold saveAttachment
  rw [if_neg hnot]
  refine ⟨rfl, rfl, rfl, rfl, ?_⟩
  intro cs
  unfold getAttachment
  rw [find?_attachment_append db.attachments _ attId hfa rfl]
  rfl

/-- C3: `getMailbox` returns null exactly when every mailbox row carrying the
requested address (in particular, the unique one when it exists) has
`expiresAt ≤ now`; an expired mailbox is invisible to lookup even while its
row still exists. -/
theorem getMailbox_none_iff (db : DB) (address : String) (now : Nat) :
    (getMailbox db address now).1 = none ↔
      ∀ m ∈ db.mailboxes, m.address = address → m.expiresAt ≤ now := by
  unfold getMailbox
  cases hf : db.mailboxes.find?
      (fun m => m.address == address && now < m.expiresAt) with
  | none =>
    constructor
    · intro _
      rw [List.find?_eq_none] at hf
      intro m hm ha
      have hfm := hf m hm
      simp only [Bool.and_eq_true, beq_iff_eq, decide_eq_true_eq, not_and] at hfm
      exact Nat.not_lt.mp (hfm ha)
    · intro _
      rfl
  | some r =>
    have hp := List.find?_some hf
    have hm := List.mem_of_find?_eq_some hf
    simp only [Bool.and_eq_true, beq_iff_eq, decide_eq_true_eq] at hp
    constructor
    · intro hcontra
      exact Option.noConfusion hcontra
    · intro hall
      exact absurd (hall r hm hp.1) (Nat.not_le.mpr hp.2)

/-- C10: `getEmails` is read-only — the database comes back unchanged (so in
particular no `isRead` flag is touched and the read-mail sweep's candidate
set is unaffected) — and the returned summaries are the projections of the
mailbox's email rows, ordered by `receivedAt` descending. -/
theorem getEmails_readonly_sorted (db : DB) (mailboxId : String) :
    (getEmails db mailboxId).2 = db ∧
    List.Pairwise (fun x y => y.receivedAt ≤ x.receivedAt)
      (getEmails db mailboxId).1 ∧
    (getEmails db mailboxId).1.Perm
      ((db.emails.filter (fun e => e.mailboxId == mailboxId)).map emailListItem) := by
  refine ⟨rfl, ?_, ?_⟩
  · have hs : List.Sorted emailDesc
        ((db.emails.filter (fun e => e.mailboxId == mailboxId)).insertionSort
          emailDesc) :=
      List.sorted_insertionSort emailDesc _
    unfold getEmails
    rw [List.pairwise_map]
    exact hs
  · unfold getEmails
    exact (List.perm_insertionSort emailDesc _).map emailListItem

/-- A mailbox row for concrete scenarios: `lastAccessed = 5`, not expired
before time 100. -/
def mboxA : Mailbox :=
  { id := "m1", address := "u@z", createdAt := 0, expiresAt := 100,
    ipAddress := "1.2.3.4", lastAccessed := 5 }

/-- A database holding just `mboxA`. -/
def dbOneMailbox : DB :=
  { mailboxes := [mboxA], emails := [], attachments := [], chunks := [] }

/-- C4, counterexample: a successful `getMailbox` at call time `now = 5`,
equal to the stored `lastAccessed`, leaves the persisted `lastAccessed`
unchanged at 5 — the call does not strictly advance it, refuting
"strictly increasing on each successful lookup". -/
theorem getMailbox_lastAccessed_not_strict :
    (getMailbox dbOneMailbox "u@z" 5).1.isSome = true ∧
    (getMailbox dbOneMailbox "u@z" 5).2.mailboxes.map Mailbox.lastAccessed
      = dbOneMailbox.mailboxes.map Mailbox.lastAccessed := by
  exact ⟨rfl, rfl⟩

/-- C4, amended: every successful `getMailbox` call returns the found row
with `lastAccessed = now`, and persists exactly that update: in the
resulting store, every mailbox row carrying the found row's id is the old
row with `lastAccessed` overwritten by `now`, and every other row is
untouched; hence `lastAccessed` is non-decreasing whenever call times
dominate the stored values, with strict increase exactly when the clock
strictly advanced. -/
theorem getMailbox_sets_lastAccessed (db : DB) (address : String) (now : Nat)
    (r : Mailbox) (h : (getMailbox db address now).1 = some r) :
    r.lastAccessed = now ∧
    (∃ m0 ∈ db.mailboxes, m0.id = r.id ∧ m0.address = address ∧
       r = { m0 with lastAccessed := now }) ∧
    List.Forall₂ (fun old new =>
        (old.id = r.id → new = { old with lastAccessed := now }) ∧
        (old.id ≠ r.id → new = old))
      db.mailboxes (getMailbox db address now).2.mailboxes ∧
    ((∀ m ∈ db.mailboxes, m.lastAccessed ≤ now) →
      List.Forall₂ (fun old new => old.lastAccessed ≤ new.lastAccessed)
        db.mailboxes (getMailbox db address now).2.mailboxes) := by
  unfold getMailbox at h ⊢
  cases hf : db.mailboxes.find?
      (fun m => m.address == address && now < m.expiresAt) with
  | none =>
    rw [hf] at h
    exact Option.noConfusion h
  | some r0 =>
    rw [hf] at h
    have hr : r = { r0 with lastAccessed := now } := (Option.some.inj h).symm
    subst hr
    have hp := List.find?_some hf
    simp only [Bool.and_eq_true, beq_iff_eq, decide_eq_true_eq] at hp
    refine ⟨rfl, ⟨r0, List.mem_of_find?_eq_some hf, rfl, hp.1, rfl⟩, ?_, ?_⟩
    · rw [List.forall₂_map_right_iff]
      rw [List.forall₂_same]
      intro m hm
      by_cases hb : (m.id == r0.id) = true
      · constructor
        · intro _
          rw [if_pos hb]
        · intro hne
          exact absurd (by simpa using hb) hne
      · constructor
        · intro heq
          exact absurd (by simp [heq] : (m.id == r0.id) = true) hb
        · intro _
          rw [if_neg hb]
    · intro hle
      rw [List.forall₂_map_right_iff]
      rw [List.forall₂_same]
      intro m hm
      by_cases hid : (m.id == r0.id)
      · simp only [hid, if_true]
        exact hle m hm
      · simp only [hid, Bool.false_eq_true, if_false]
        exact Nat.le_refl _

/-- The row `mboxA` after a successful lookup at time 7. -/
def mboxA7 : Mailbox := { mboxA with lastAccessed := 7 }

/-- C4, witness: the amended theorem applied to the one-mailbox database at
call time 7. -/
theorem getMailbox_sets_lastAccessed_witness :
    ((getMailbox dbOneMailbox "u@z" 7).1 = some mboxA7) ∧
    (mboxA7.lastAccessed = 7 ∧
     (∃ m0 ∈ dbOneMailbox.mailboxes, m0.id = mboxA7.id ∧ m0.address = "u@z" ∧
        mboxA7 = { m0 with lastAccessed := 7 }) ∧
     List.Forall₂ (fun old new =>
         (old.id = mboxA7.id → new = { old with lastAccessed := 7 }) ∧
         (old.id ≠ mboxA7.id → new = old))
       dbOneMailbox.mailboxes (getMailbox dbOneMailbox "u@z" 7).2.mailboxes ∧
     ((∀ m ∈ dbOneMailbox.mailboxes, m.lastAccessed ≤ 7) →
       List.Forall₂ (fun old new => old.lastAccessed ≤ new.lastAccessed)
         dbOneMailbox.mailboxes (getMailbox dbOneMailbox "u@z" 7).2.mailboxes)) :=
  ⟨rfl, getMailbox_sets_lastAccessed dbOneMailbox "u@z" 7 mboxA7 rfl⟩

/-- `markRead` never changes the id of a row. -/
theorem markRead_beq (id : String) (e : Email) :
    ((markRead id e).id == id) = (e.id == id) := by
  unfold markRead
  by_cases hc : (e.id == id) = true
  · rw [if_pos hc]
  · rw [if_neg hc]

/-- Marking a row read twice is the same as marking it once. -/
theorem markRead_idem (id : String) (e : Email) :
    markRead id (markRead id e) = markRead id e := by
  by_cases hc : (e.id == id) = true
  · have h1 : markRead id e = { e with isRead := true } := by
      unfold markRead
      rw [if_pos hc]
    have h2 : ({ e with isRead := true }.id == id) = true := hc
    rw [h1]
    unfold markRead
    rw [if_pos h2]
  · have h1 : markRead id e = e := by
      unfold markRead
      rw [if_neg hc]
    rw [h1, h1]

/-- C5: for every email id present in the store, `getEmail` returns the full
record with `isRead = true`, the stored row's `isRead` flag becomes `true`,
and a repeated call returns the same record and leaves the store unchanged
(idempotence). -/
theorem getEmail_marks_read (db : DB) (id : String)
    (h : ∃ e ∈ db.emails, e.id = id) :
    ∃ r, (getEmail db id).1 = some r ∧ r.isRead = true ∧
      (∀ e ∈ (getEmail db id).2.emails, e.id = id → e.isRead = true) ∧
      getEmail (getEmail db id).2 id
        = ((getEmail db id).1, (getEmail db id).2) := by
  obtain ⟨e0, he0, hid0⟩ := h
  have hsome : (db.emails.find? (fun e => e.id == id)).isSome := by
    rw [List.find?_isSome]
    exact ⟨e0, he0, by simp [hid0]⟩
  obtain ⟨r0, hf⟩ := Option.isSome_iff_exists.mp hsome
  have hr0 : (r0.id == id) = true := by
    have hp := List.find?_some hf
    exact hp
  refine ⟨{ r0 with isRead := true }, ?_, rfl, ?_, ?_⟩
  · unfold getEmail
    rw [hf]
  · unfold getEmail
    rw [hf]
    intro e he hei
    simp only [List.mem_map] at he
    obtain ⟨e1, he1, hfe⟩ := he
    by_cases hc : (e1.id == id) = true
    · rw [← hfe]
      unfold markRead
      rw [if_pos hc]
    · exfalso
      have hsame : markRead id e1 = e1 := by
        unfold markRead
        rw [if_neg hc]
      rw [← hfe, hsame] at hei
      exact hc (by simp [hei])
  · unfold getEmail
    rw [hf]
    have hmapfind :
        (db.emails.map (markRead id)).find? (fun e => e.id == id)
          = some { r0 with isRead := true } := by
      rw [List.find?_map]
      have hcomp : ((fun e : Email => e.id == id) ∘ markRead id)
          = (fun e : Email => e.id == id) :=
        funext fun e => markRead_beq id e
      rw [hcomp, hf, Option.map_some']
      unfold markRead
      rw [if_pos hr0]
    rw [hmapfind]
    rw [List.map_map]
    have hmm : List.map (markRead id ∘ markRead id) db.emails
        = List.map (markRead id) db.emails :=
      List.map_congr_left (fun e _ => markRead_idem id e)
    rw [hmm]

/-- An unread email row for concrete scenarios. -/
def emailA : Email :=
  { id := "e1", mailboxId := "m1", fromAddress := "s@x", fromName := "S",
    toAddress := "u@z", subject := "hi", textContent := "t",
    htmlContent := "<p>t</p>", receivedAt := 3, hasAttachments := false,
    isRead := false }

/-- A database holding just `emailA`. -/
def dbOneEmail : DB :=
  { mailboxes := [], emails := [emailA], attachments := [], chunks := [] }

/-- C5, witness: the theorem applied to the one-email database. -/
theorem getEmail_marks_read_witness :
    (∃ e ∈ dbOneEmail.emails, e.id = "e1") ∧
    (∃ r, (getEmail dbOneEmail "e1").1 = some r ∧ r.isRead = true ∧
      (∀ e ∈ (getEmail dbOneEmail "e1").2.emails, e.id = "e1" → e.isRead = true) ∧
      getEmail (getEmail dbOneEmail "e1").2 "e1"
        = ((getEmail dbOneEmail "e1").1, (getEmail dbOneEmail "e1").2)) :=
  ⟨⟨emailA, by simp [dbOneEmail], rfl⟩,
   getEmail_marks_read dbOneEmail "e1" ⟨emailA, by simp [dbOneEmail], rfl⟩⟩

/-- `getAttachment` on a hit returns the row with reassembled or inline
content according to `isLarge`. -/
theorem getAttachment_eq (db : DB) (id : String) (r : Attachment)
    (hf : db.attachments.find? (fun a => a.id == id) = some r) :
    getAttachment db id = some { r with content :=
      if r.isLarge then getAttachmentContent db id r.chunksCount
      else r.content } := by
  unfold getAttachment
  rw [hf]

/-- Looking up chunk `i` of a freshly saved large attachment finds exactly
the row the save loop wrote for index `i`. -/
theorem find?_chunk_append_fresh (cs : List AttachmentChunk)
    (content : List Char) (attId : String) (chunkId : Nat → String) (i : Nat)
    (hfc : ∀ c ∈ cs, c.attachmentId ≠ attId)
    (hi : i < (content.length + CHUNK_SIZE - 1) / CHUNK_SIZE) :
    (cs ++ chunkRows content attId chunkId).find?
        (fun c => c.attachmentId == attId && c.chunkIndex == i)
      = some { id := chunkId i, attachmentId := attId, chunkIndex := i,
               content := (content.drop (i * CHUNK_SIZE)).take CHUNK_SIZE } := by
  rw [List.find?_append]
  have hnone : cs.find?
      (fun c => c.attachmentId == attId && c.chunkIndex == i) = none := by
    rw [List.find?_eq_none]
    intro c hc
    simp only [Bool.and_eq_true, beq_iff_eq, not_and]
    intro hca
    exact absurd hca (hfc c hc)
  rw [hnone, Option.none_or]
  unfold chunkRows
  rw [List.find?_map]
  have hcomp : ((fun c : AttachmentChunk =>
        c.attachmentId == attId && c.chunkIndex == i) ∘
      (fun j => ({ id := chunkId j, attachmentId := attId, chunkIndex := j,
                   content := (content.drop (j * CHUNK_SIZE)).take CHUNK_SIZE }
        : AttachmentChunk)))
      = (fun j : Nat => j == i) := by
    funext j
    simp only [Function.comp_apply, beq_self_eq_true, Bool.true_and]
  rw [hcomp, find?_beq_range i _ hi]
  rfl

/-- Reassembling from a chunk table that is `cs` (with no row for this
attachment) followed by the rows the save loop wrote reproduces the
original payload. -/
theorem getAttachmentContent_chunkRows (db1 : DB) (cs : List AttachmentChunk)
    (content : List Char) (attId : String) (chunkId : Nat → String)
    (hdb : db1.chunks = cs ++ chunkRows content attId chunkId)
    (hfc : ∀ c ∈ cs, c.attachmentId ≠ attId) :
    getAttachmentContent db1 attId
      ((content.length + CHUNK_SIZE - 1) / CHUNK_SIZE) = content := by
  rw [getAttachmentContent_flatten]
  have hmap : ∀ i ∈ List.range ((content.length + CHUNK_SIZE - 1) / CHUNK_SIZE),
      chunkAt db1 attId i = (content.drop (i * CHUNK_SIZE)).take CHUNK_SIZE := by
    intro i hi
    unfold chunkAt
    rw [hdb, find?_chunk_append_fresh cs content attId chunkId i hfc
      (List.mem_range.mp hi)]
  rw [List.map_congr_left hmap]
  exact flatten_take_drop CHUNK_SIZE _ content (length_le_chunksCount_mul content.length)

/-- C1: for a payload of length `L > 500000`, `saveAttachment` stores the
attachment chunked with `isLarge = true`, `chunksCount = ceil(L / 500000)`
and empty inline content (both in the returned record and in the stored
row), and a subsequent `getAttachment` returns content equal, unit for
unit, to the original payload (round-trip law). -/
theorem saveAttachment_large_roundTrip (db : DB) (params : SaveAttachmentParams)
    (now : Nat) (attId : String) (chunkId : Nat → String)
    (hL : CHUNK_SIZE < params.content.length)
    (hfa : ∀ a ∈ db.attachments, a.id ≠ attId)
    (hfc : ∀ c ∈ db.chunks, c.attachmentId ≠ attId) :
    (saveAttachment db params now attId chunkId).1.isLarge = true ∧
    (saveAttachment db params now attId chunkId).1.chunksCount
      = (params.content.length + CHUNK_SIZE - 1) / CHUNK_SIZE ∧
    (saveAttachment db params now attId chunkId).1.content = [] ∧
    (∀ a ∈ (saveAttachment db params now attId chunkId).2.attachments,
       a.id = attId → a.content = []) ∧
    getAttachment (saveAttachment db params now attId chunkId).2 attId
      = some { (saveAttachment db params now attId chunkId).1 with
               content := params.content } := by
  unfold saveAttachment
  rw [if_pos hL]
  refine ⟨rfl, rfl, rfl, ?_, ?_⟩
  · intro a ha haid
    rw [List.mem_append] at ha
    cases ha with
    | inl hmem => exact absurd haid (hfa a hmem)
    | inr hmem =>
      rw [List.mem_singleton.mp hmem]
      rfl
  · have hcontent : getAttachmentContent
        { db with
          attachments := db.attachments ++ [largeAttachment params now attId],
          chunks := db.chunks ++ chunkRows params.content attId chunkId }
        attId ((params.content.length + CHUNK_SIZE - 1) / CHUNK_SIZE)
        = params.content :=
      getAttachmentContent_chunkRows _ db.chunks params.content attId chunkId
        rfl hfc
    rw [getAttachment_eq _ attId (largeAttachment params now attId)
      (find?_attachment_append db.attachments _ attId hfa rfl)]
    rw [if_pos (show (largeAttachment params now attId).isLarge = true from rfl)]
    rw [show (largeAttachment params now attId).chunksCount
      = (params.content.length + CHUNK_SIZE - 1) / CHUNK_SIZE from rfl]
    rw [hcontent]
    rfl

/-- A large payload: 500001 identical units, one over the threshold. -/
def paramsLarge : SaveAttachmentParams :=
  { emailId := "e1", filename := "big.bin", mimeType := "application/gzip",
    content := List.replicate 500001 'a', size := 500001 }

/-- C1, witness: the round-trip theorem applied to the empty database and a
500001-unit payload. -/
theorem saveAttachment_large_roundTrip_witness :
    CHUNK_SIZE < paramsLarge.content.length ∧
    (∀ a ∈ emptyDB.attachments, a.id ≠ "a1") ∧
    (∀ c ∈ emptyDB.chunks, c.attachmentId ≠ "a1") ∧
    ((saveAttachment emptyDB paramsLarge 7 "a1" (fun i => toString i)).1.isLarge = true ∧
     (saveAttachment emptyDB paramsLarge 7 "a1" (fun i => toString i)).1.chunksCount
       = (paramsLarge.content.length + CHUNK_SIZE - 1) / CHUNK_SIZE ∧
     (saveAttachment emptyDB paramsLarge 7 "a1" (fun i => toString i)).1.content = [] ∧
     (∀ a ∈ (saveAttachment emptyDB paramsLarge 7 "a1" (fun i => toString i)).2.attachments,
        a.id = "a1" → a.content = []) ∧
     getAttachment (saveAttachment emptyDB paramsLarge 7 "a1" (fun i => toString i)).2 "a1"
       = some { (saveAttachment emptyDB paramsLarge 7 "a1" (fun i => toString i)).1 with
                content := paramsLarge.content }) :=
  ⟨by
     show CHUNK_SIZE < (List.replicate 500001 'a').length
     rw [List.length_replicate, show CHUNK_SIZE = 500000 from rfl]
     omega,
   fun a ha => absurd ha (by simp [emptyDB]),
   fun c hc => absurd hc (by simp [emptyDB]),
   saveAttachment_large_roundTrip emptyDB paramsLarge 7 "a1" (fun i => toString i)
     (by
       show CHUNK_SIZE < (List.replicate 500001 'a').length
       rw [List.length_replicate, show CHUNK_SIZE = 500000 from rfl]
       omega)
     (fun a ha => absurd ha (by simp [emptyDB]))
     (fun c hc => absurd hc (by simp [emptyDB]))⟩

/-- A one-unit payload, under the threshold. -/
def paramsSmall : SaveAttachmentParams :=
  { emailId := "e1", filename := "f.txt", mimeType := "text/plain",
    content := ['a'], size := 1 }

/-- C2, witness: the small-attachment theorem applied to the empty database
and a one-unit payload. -/
theorem saveAttachment_small_inline_witness :
    paramsSmall.content.length ≤ CHUNK_SIZE ∧
    (∀ a ∈ emptyDB.attachments, a.id ≠ "a1") ∧
    ((saveAttachment emptyDB paramsSmall 7 "a1" (fun i => toString i)).1.isLarge = false ∧
     (saveAttachment emptyDB paramsSmall 7 "a1" (fun i => toString i)).1.chunksCount = 0 ∧
     (saveAttachment emptyDB paramsSmall 7 "a1" (fun i => toString i)).1.content
       = paramsSmall.content ∧
     (saveAttachment emptyDB paramsSmall 7 "a1" (fun i => toString i)).2.chunks
       = emptyDB.chunks ∧
     (∀ cs : List AttachmentChunk,
       getAttachment
         { (saveAttachment emptyDB paramsSmall 7 "a1" (fun i => toString i)).2 with
           chunks := cs } "a1"
         = some (saveAttachment emptyDB paramsSmall 7 "a1" (fun i => toString i)).1)) :=
  ⟨by decide,
   fun a ha => absurd ha (by simp [emptyDB]),
   saveAttachment_small_inline emptyDB paramsSmall 7 "a1" (fun i => toString i)
     (by decide)
     (fun a ha => absurd ha (by simp [emptyDB]))⟩

/-- C8: reassembly visits chunk indices `0..chunksCount-1` strictly in
ascending order and concatenates what it finds: the result equals the
flatten, over the ascending index range, of each index's chunk content,
where an index whose chunk row is missing contributes nothing (it is
silently skipped, producing possibly truncated content, never an error). -/
theorem getAttachmentContent_gapTolerant (db : DB) (aid : String) (n : Nat) :
    getAttachmentContent db aid n
      = ((List.range n).map (chunkAt db aid)).flatten ∧
    (∀ i, db.chunks.find?
        (fun c => c.attachmentId == aid && c.chunkIndex == i) = none →
      chunkAt db aid i = []) := by
  refine ⟨getAttachmentContent_flatten db aid n, ?_⟩
  intro i hnone
  unfold chunkAt
  rw [hnone]

/-- Splitting a list by a predicate partitions its length. -/
theorem length_filter_partition (p : α → Bool) (l : List α) :
    (l.filter p).length + (l.filter (fun x => !(p x))).length = l.length := by
  induction l with
  | nil => rfl
  | cons x xs ih =>
    rw [List.filter_cons, List.filter_cons]
    cases hp : p x with
    | true =>
      simp only [hp, Bool.not_true, Bool.false_eq_true, if_false, if_true,
        List.length_cons]
      omega
    | false =>
      simp only [hp, Bool.not_false, Bool.false_eq_true, if_false, if_true,
        List.length_cons]
      omega

/-- `cleanupAttachments` does not touch the email table. -/
theorem cleanupAttachments_emails (db : DB) (eid : String) :
    (cleanupAttachments db eid).emails = db.emails := by
  unfold cleanupAttachments
  by_cases hemp : (db.attachments.filter (fun a => a.emailId == eid)).isEmpty
  · rw [if_pos hemp]
  · rw [if_neg hemp]
    rfl

/-- After `cleanupAttachments`, no attachment row of the cleaned email
remains. -/
theorem cleanupAttachments_no_attachment (db : DB) (eid : String) :
    ∀ a ∈ (cleanupAttachments db eid).attachments, a.emailId ≠ eid := by
  intro a ha
  unfold cleanupAttachments at ha
  by_cases hemp : (db.attachments.filter (fun a => a.emailId == eid)).isEmpty
  · rw [if_pos hemp] at ha
    have ha' : a ∈ db.attachments := ha
    have hnil : db.attachments.filter (fun a => a.emailId == eid) = [] :=
      List.isEmpty_iff.mp hemp
    have hne := List.filter_eq_nil_iff.mp hnil a ha'
    simpa using hne
  · rw [if_neg hemp] at ha
    have ha' : a ∈ db.attachments.filter (fun a => !(a.emailId == eid)) := ha
    have h2 := (List.mem_filter.mp ha').2
    rw [Bool.not_eq_true'] at h2
    simpa using h2

/-- After `cleanupAttachments`, no chunk row of any of the cleaned email's
attachments remains. -/
theorem cleanupAttachments_no_chunk (db : DB) (eid : String) :
    ∀ c ∈ (cleanupAttachments db eid).chunks, ∀ a ∈ db.attachments,
      a.emailId = eid → c.attachmentId ≠ a.id := by
  intro c hc a ha haid
  unfold cleanupAttachments at hc
  by_cases hemp : (db.attachments.filter (fun a => a.emailId == eid)).isEmpty
  · exfalso
    have hnil : db.attachments.filter (fun a => a.emailId == eid) = [] :=
      List.isEmpty_iff.mp hemp
    have hne := List.filter_eq_nil_iff.mp hnil a ha
    simp [haid] at hne
  · rw [if_neg hemp] at hc
    have hc' : c ∈ (db.chunks.filter (fun c =>
        !((db.attachments.filter (fun a => a.emailId == eid)).any
          (fun a => a.isLarge && a.id == c.attachmentId)))).filter (fun c =>
        !((db.attachments.filter (fun a => a.emailId == eid)).any
          (fun a => a.id == c.attachmentId))) := hc
    have h2 := (List.mem_filter.mp hc').2
    rw [Bool.not_eq_true'] at h2
    rw [List.any_eq_false] at h2
    intro hca
    have hmem : a ∈ db.attachments.filter (fun a => a.emailId == eid) :=
      List.mem_filter.mpr ⟨ha, by simp [haid]⟩
    exact h2 a hmem (by simp [hca])

/-- `cleanupAttachments` is the identity when the email has no attachments. -/
theorem cleanupAttachments_no_match (d : DB) (eid : String)
    (h : ∀ a ∈ d.attachments, a.emailId ≠ eid) : cleanupAttachments d eid = d := by
  unfold cleanupAttachments
  have h0 : d.attachments.filter (fun a => a.emailId == eid) = [] :=
    List.filter_eq_nil_iff.mpr (fun a ha => by simp [h a ha])
  rw [if_pos (by rw [h0]; rfl)]

/-- `DELETE FROM emails WHERE p` is the identity when no row matches. -/
theorem deleteEmailsWhere_no_match (d : DB) (p : Email → Bool)
    (h : ∀ e ∈ d.emails, p e = false) : d.deleteEmailsWhere p = d := by
  unfold DB.deleteEmailsWhere
  have h0 : d.emails.filter p = [] :=
    List.filter_eq_nil_iff.mpr (fun e he => by simp [h e he])
  rw [h0]
  have h1 : d.attachments.filter
      (fun a => List.any ([] : List Email) (fun e => e.id == a.emailId)) = [] :=
    List.filter_eq_nil_iff.mpr (fun a _ => by simp)
  rw [h1]
  refine DB.ext rfl ?_ ?_ ?_
  · exact List.filter_eq_self.mpr (fun e he => by rw [h e he]; rfl)
  · exact List.filter_eq_self.mpr (fun a _ => rfl)
  · exact List.filter_eq_self.mpr (fun c _ => rfl)

/-- C6: `deleteEmail` removes the email row, leaves no attachment row and no
chunk row of that email's attachments behind, and a second `deleteEmail` on
the same id is a no-op. -/
theorem deleteEmail_cleans (db : DB) (id : String) :
    (∀ e ∈ (deleteEmail db id).emails, e.id ≠ id) ∧
    (∀ a ∈ (deleteEmail db id).attachments, a.emailId ≠ id) ∧
    (∀ c ∈ (deleteEmail db id).chunks, ∀ a ∈ db.attachments,
       a.emailId = id → c.attachmentId ≠ a.id) ∧
    deleteEmail (deleteEmail db id) id = deleteEmail db id := by
  have hemails : ∀ e ∈ (deleteEmail db id).emails, e.id ≠ id := by
    intro e he
    have he' : e ∈ (cleanupAttachments db id).emails.filter
        (fun e => !(e.id == id)) := he
    have h2 := (List.mem_filter.mp he').2
    rw [Bool.not_eq_true'] at h2
    simpa using h2
  have hatts : ∀ a ∈ (deleteEmail db id).attachments, a.emailId ≠ id := by
    intro a ha
    have ha' : a ∈ (cleanupAttachments db id).attachments.filter
        (fun a => !(((cleanupAttachments db id).emails.filter
          (fun e => e.id == id)).any (fun e => e.id == a.emailId))) := ha
    exact cleanupAttachments_no_attachment db id a (List.mem_filter.mp ha').1
  have hchunks : ∀ c ∈ (deleteEmail db id).chunks, ∀ a ∈ db.attachments,
      a.emailId = id → c.attachmentId ≠ a.id := by
    intro c hcmem
    have hc' : c ∈ (cleanupAttachments db id).chunks.filter
        (fun c => !(((cleanupAttachments db id).attachments.filter
            (fun a => ((cleanupAttachments db id).emails.filter
              (fun e => e.id == id)).any (fun e => e.id == a.emailId))).any
          (fun a => a.id == c.attachmentId))) := hcmem
    exact cleanupAttachments_no_chunk db id c (List.mem_filter.mp hc').1
  refine ⟨hemails, hatts, hchunks, ?_⟩
  show (cleanupAttachments (deleteEmail db id) id).deleteEmailsWhere
      (fun e => e.id == id) = deleteEmail db id
  rw [cleanupAttachments_no_match (deleteEmail db id) id hatts]
  exact deleteEmailsWhere_no_match (deleteEmail db id) _
    (fun e he => by
      have hne := hemails e he
      simpa using hne)

/-- C7: after `deleteMailbox`, no mailbox row with the address, no email row
owned by such a mailbox, no attachment row owned by those emails, and no
chunk row owned by those attachments remain in the store. -/
theorem deleteMailbox_cascades (db : DB) (address : String) :
    (∀ m ∈ (deleteMailbox db address).mailboxes, m.address ≠ address) ∧
    (∀ e ∈ (deleteMailbox db address).emails, ∀ m ∈ db.mailboxes,
       m.address = address → e.mailboxId ≠ m.id) ∧
    (∀ a ∈ (deleteMailbox db address).attachments,
       ∀ e ∈ db.emails, ∀ m ∈ db.mailboxes,
         m.address = address → e.mailboxId = m.id → a.emailId ≠ e.id) ∧
    (∀ c ∈ (deleteMailbox db address).chunks,
       ∀ a ∈ db.attachments, ∀ e ∈ db.emails, ∀ m ∈ db.mailboxes,
         m.address = address → e.mailboxId = m.id → a.emailId = e.id →
           c.attachmentId ≠ a.id) := by
  refine ⟨?_, ?_, ?_, ?_⟩
  · intro m hm
    have hm' : m ∈ db.mailboxes.filter (fun m => !(m.address == address)) := hm
    have h2 := (List.mem_filter.mp hm').2
    rw [Bool.not_eq_true'] at h2
    simpa using h2
  · intro e he m hm haddr
    have he' : e ∈ db.emails.filter (fun e =>
        !((db.mailboxes.filter (fun m => m.address == address)).any
          (fun m => m.id == e.mailboxId))) := he
    have h2 := (List.mem_filter.mp he').2
    rw [Bool.not_eq_true'] at h2
    rw [List.any_eq_false] at h2
    intro hmb
    have hmmem : m ∈ db.mailboxes.filter (fun m => m.address == address) :=
      List.mem_filter.mpr ⟨hm, by simp [haddr]⟩
    exact h2 m hmmem (by simp [hmb])
  · intro a ha e he m hm haddr hmb
    have ha' : a ∈ db.attachments.filter (fun a =>
        !((db.emails.filter (fun e =>
            (db.mailboxes.filter (fun m => m.address == address)).any
              (fun m => m.id == e.mailboxId))).any
          (fun e => e.id == a.emailId))) := ha
    have h2 := (List.mem_filter.mp ha').2
    rw [Bool.not_eq_true'] at h2
    rw [List.any_eq_false] at h2
    intro hae
    have hmmem : m ∈ db.mailboxes.filter (fun m => m.address == address) :=
      List.mem_filter.mpr ⟨hm, by simp [haddr]⟩
    have hemem : e ∈ db.emails.filter (fun e =>
        (db.mailboxes.filter (fun m => m.address == address)).any
          (fun m => m.id == e.mailboxId)) :=
      List.mem_filter.mpr ⟨he, by
        rw [List.any_eq_true]
        exact ⟨m, hmmem, by simp [hmb]⟩⟩
    exact h2 e hemem (by simp [hae])
  · intro c hc a ha e he m hm haddr hmb hae
    have hc' : c ∈ db.chunks.filter (fun c =>
        !((db.attachments.filter (fun a =>
            (db.emails.filter (fun e =>
              (db.mailboxes.filter (fun m => m.address == address)).any
                (fun m => m.id == e.mailboxId))).any
            (fun e => e.id == a.emailId))).any
          (fun a => a.id == c.attachmentId))) := hc
    have h2 := (List.mem_filter.mp hc').2
    rw [Bool.not_eq_true'] at h2
    rw [List.any_eq_false] at h2
    intro hca
    have hmmem : m ∈ db.mailboxes.filter (fun m => m.address == address) :=
      List.mem_filter.mpr ⟨hm, by simp [haddr]⟩
    have hemem : e ∈ db.emails.filter (fun e =>
        (db.mailboxes.filter (fun m => m.address == address)).any
          (fun m => m.id == e.mailboxId)) :=
      List.mem_filter.mpr ⟨he, by
        rw [List.any_eq_true]
        exact ⟨m, hmmem, by simp [hmb]⟩⟩
    have hamem : a ∈ db.attachments.filter (fun a =>
        (db.emails.filter (fun e =>
          (db.mailboxes.filter (fun m => m.address == address)).any
            (fun m => m.id == e.mailboxId))).any
          (fun e => e.id == a.emailId)) :=
      List.mem_filter.mpr ⟨ha, by
        rw [List.any_eq_true]
        exact ⟨e, hemem, by simp [hae]⟩⟩
    exact h2 a hamem (by simp [hca])

/-- C9: after orphan reconciliation, every remaining attachment row's
`emailId` has a matching email row, no chunk row of any orphaned attachment
remains, and the returned count is exactly the number of attachment rows
deleted. -/
theorem cleanupOrphanedAttachments_reconciles (db : DB) :
    (cleanupOrphanedAttachments db).2.emails = db.emails ∧
    (∀ a ∈ (cleanupOrphanedAttachments db).2.attachments,
       ∃ e ∈ db.emails, e.id = a.emailId) ∧
    (∀ c ∈ (cleanupOrphanedAttachments db).2.chunks, ∀ a ∈ db.attachments,
       (∀ e ∈ db.emails, e.id ≠ a.emailId) → c.attachmentId ≠ a.id) ∧
    (cleanupOrphanedAttachments db).1
      + (cleanupOrphanedAttachments db).2.attachments.length
      = db.attachments.length := by
  unfold cleanupOrphanedAttachments
  by_cases hemp : (db.attachments.filter (fun a =>
      !(db.emails.any (fun e => e.id == a.emailId)))).isEmpty
  · rw [if_pos hemp]
    have hnil : db.attachments.filter (fun a =>
        !(db.emails.any (fun e => e.id == a.emailId))) = [] :=
      List.isEmpty_iff.mp hemp
    have hall := List.filter_eq_nil_iff.mp hnil
    have hany : ∀ a ∈ db.attachments,
        db.emails.any (fun e => e.id == a.emailId) = true := by
      intro a ha
      have hne := hall a ha
      cases hx : db.emails.any (fun e => e.id == a.emailId) with
      | true => rfl
      | false => exact absurd (by rw [hx]; rfl) hne
    refine ⟨rfl, ?_, ?_, ?_⟩
    · intro a ha
      have ha' : a ∈ db.attachments := ha
      have hx := hany a ha'
      rw [List.any_eq_true] at hx
      obtain ⟨e, hemem, hbe⟩ := hx
      exact ⟨e, hemem, by simpa using hbe⟩
    · intro c hc a ha hno
      exfalso
      have hx := hany a ha
      rw [List.any_eq_true] at hx
      obtain ⟨e, hemem, hbe⟩ := hx
      exact hno e hemem (by simpa using hbe)
    · exact Nat.zero_add _
  · rw [if_neg hemp]
    refine ⟨rfl, ?_, ?_, ?_⟩
    · intro a ha
      have ha' : a ∈ db.attachments.filter (fun a =>
          !(!(db.emails.any (fun e => e.id == a.emailId)))) := ha
      have h2 := (List.mem_filter.mp ha').2
      rw [Bool.not_not] at h2
      rw [List.any_eq_true] at h2
      obtain ⟨e, hemem, hbe⟩ := h2
      exact ⟨e, hemem, by simpa using hbe⟩
    · intro c hc a ha hno
      have hc' : c ∈ (db.chunks.filter (fun c =>
          !((db.attachments.filter (fun a =>
              !(db.emails.any (fun e => e.id == a.emailId)))).any
            (fun a => a.isLarge && a.id == c.attachmentId)))).filter (fun c =>
          !((db.attachments.filter (fun a =>
              !(db.emails.any (fun e => e.id == a.emailId)))).any
            (fun a => a.id == c.attachmentId))) := hc
      have h2 := (List.mem_filter.mp hc').2
      rw [Bool.not_eq_true'] at h2
      rw [List.any_eq_false] at h2
      intro hca
      have hamem : a ∈ db.attachments.filter (fun a =>
          !(db.emails.any (fun e => e.id == a.emailId))) :=
        List.mem_filter.mpr ⟨ha, by
          rw [Bool.not_eq_true']
          rw [List.any_eq_false]
          intro e hemem hbe
          exact hno e hemem (by simpa using hbe)⟩
      exact h2 a hamem (by simp [hca])
    · show (db.attachments.filter (fun a =>
          !(db.emails.any (fun e => e.id == a.emailId)))).length
        + (db.attachments.filter (fun a =>
            !(!(db.emails.any (fun e => e.id == a.emailId))))).length
        = db.attachments.length
      exact length_filter_partition _ _
